import Mathlib

/-!
Verification of the QuickEx privacy contract (Soroban/Rust).

Shallow embedding of:
- src/app/contract/contracts/quickex/src/commitment.rs
  (create_amount_commitment, verify_amount_commitment, concat_bytes,
  extend_bytes, and the host SHA-256 primitive env.crypto().sha256)
- src/app/contract/contracts/quickex/src/lib.rs
  (enable_privacy, privacy_status, privacy_history, create_escrow,
  health_check, over the persistent key/value store)

Bytes are modelled as List Byte with Byte := Fin 256; machine words inside
SHA-256 are Nat reduced mod 2 ^ 32; the i128 amount is Int, with the i128
range carried as hypotheses where it matters; Rust panics become
Except.error of an explicit error type.
-/

/-- A byte, as stored in soroban Bytes. -/
abbrev Byte := Fin 256

/-- Truncate a natural number to a byte. -/
def natToByte (n : Nat) : Byte := ⟨n % 256, Nat.mod_lt _ (by norm_num)⟩

/-! ## SHA-256 (FIPS 180-4), the host primitive env.crypto().sha256.
Words are Nat kept below 2 ^ 32 by explicit reduction. -/

/-- Reduce to a 32-bit word. -/
def wmod (x : Nat) : Nat := x % 2 ^ 32

/-- Right rotation of a 32-bit word. -/
def rotr (n x : Nat) : Nat := (x >>> n) ||| ((x <<< (32 - n)) % 2 ^ 32)

/-- Bitwise complement within 32 bits. -/
def wnot (x : Nat) : Nat := x ^^^ (2 ^ 32 - 1)

/-- SHA-256 choice function. -/
def shaCh (x y z : Nat) : Nat := (x &&& y) ^^^ (wnot x &&& z)

/-- SHA-256 majority function. -/
def shaMaj (x y z : Nat) : Nat := (x &&& y) ^^^ (x &&& z) ^^^ (y &&& z)

/-- SHA-256 big Sigma 0. -/
def bigSigma0 (x : Nat) : Nat := rotr 2 x ^^^ rotr 13 x ^^^ rotr 22 x

/-- SHA-256 big Sigma 1. -/
def bigSigma1 (x : Nat) : Nat := rotr 6 x ^^^ rotr 11 x ^^^ rotr 25 x

/-- SHA-256 small sigma 0. -/
def smallSigma0 (x : Nat) : Nat := rotr 7 x ^^^ rotr 18 x ^^^ (x >>> 3)

/-- SHA-256 small sigma 1. -/
def smallSigma1 (x : Nat) : Nat := rotr 17 x ^^^ rotr 19 x ^^^ (x >>> 10)

/-- The 64 SHA-256 round constants of FIPS 180-4 section 4.2.2, written in
decimal. -/
def K256 : List Nat :=
  [1116352408, 1899447441, 3049323471, 3921009573,
   961987163, 1508970993, 2453635748, 2870763221,
   3624381080, 310598401, 607225278, 1426881987,
   1925078388, 2162078206, 2614888103, 3248222580,
   3835390401, 4022224774, 264347078, 604807628,
   770255983, 1249150122, 1555081692, 1996064986,
   2554220882, 2821834349, 2952996808, 3210313671,
   3336571891, 3584528711, 113926993, 338241895,
   666307205, 773529912, 1294757372, 1396182291,
   1695183700, 1986661051, 2177026350, 2456956037,
   2730485921, 2820302411, 3259730800, 3345764771,
   3516065817, 3600352804, 4094571909, 275423344,
   430227734, 506948616, 659060556, 883997877,
   958139571, 1322822218, 1537002063, 1747873779,
   1955562222, 2024104815, 2227730452, 2361852424,
   2428436474, 2756734187, 3204031479, 3329325298]

/-- The eight SHA-256 working variables / chaining values. -/
structure Hash8 where
  a : Nat
  b : Nat
  c : Nat
  d : Nat
  e : Nat
  f : Nat
  g : Nat
  h : Nat
deriving DecidableEq

/-- The SHA-256 initial hash value of FIPS 180-4 section 5.3.3, written in
decimal. -/
def initH : Hash8 :=
  ⟨1779033703, 3144134277, 1013904242, 2773480762,
   1359893119, 2600822924, 528734635, 1541459225⟩

/-- Group bytes into 32-bit big-endian words. -/
def toWords : List Byte → List Nat
  | b0 :: b1 :: b2 :: b3 :: rest =>
      (b0.val * 2 ^ 24 + b1.val * 2 ^ 16 + b2.val * 2 ^ 8 + b3.val) :: toWords rest
  | _ => []

/-- Extend the 16-word message schedule by the given number of words. -/
def extendW : Nat → List Nat → List Nat
  | 0, w => w
  | n + 1, w =>
      extendW n (w ++ [wmod (smallSigma1 (w.getD (w.length - 2) 0) +
        w.getD (w.length - 7) 0 + smallSigma0 (w.getD (w.length - 15) 0) +
        w.getD (w.length - 16) 0)])

/-- One SHA-256 round, consuming one (constant, schedule-word) pair. -/
def shaStep (s : Hash8) (kw : Nat × Nat) : Hash8 :=
  let t1 := wmod (s.h + bigSigma1 s.e + shaCh s.e s.f s.g + kw.1 + kw.2)
  let t2 := wmod (bigSigma0 s.a + shaMaj s.a s.b s.c)
  ⟨wmod (t1 + t2), s.a, s.b, s.c, wmod (s.d + t1), s.e, s.f, s.g⟩

/-- Compress one 64-byte block into the chaining value. -/
def compress (hs : Hash8) (block : List Byte) : Hash8 :=
  let w := extendW 48 (toWords block)
  let s := (K256.zip w).foldl shaStep hs
  ⟨wmod (hs.a + s.a), wmod (hs.b + s.b), wmod (hs.c + s.c), wmod (hs.d + s.d),
   wmod (hs.e + s.e), wmod (hs.f + s.f), wmod (hs.g + s.g), wmod (hs.h + s.h)⟩

/-- SHA-256 padding: 0x80, zeros to 56 mod 64, then the 64-bit bit length. -/
def shaPad (msg : List Byte) : List Byte :=
  let l := msg.length
  let zeros := (119 - l % 64) % 64
  msg ++ [natToByte 0x80] ++ List.replicate zeros (natToByte 0) ++
    (List.range 8).map (fun k => natToByte ((l * 8) >>> (8 * (7 - k))))

/-- Split into 64-byte blocks; the fuel argument bounds the recursion. -/
def toBlocksAux : Nat → List Byte → List (List Byte)
  | 0, _ => []
  | _ + 1, [] => []
  | n + 1, l => l.take 64 :: toBlocksAux n (l.drop 64)

/-- Serialize the final chaining value as 32 big-endian bytes. -/
def hashBytes (s : Hash8) : List Byte :=
  [natToByte (s.a >>> 24), natToByte (s.a >>> 16), natToByte (s.a >>> 8), natToByte s.a,
   natToByte (s.b >>> 24), natToByte (s.b >>> 16), natToByte (s.b >>> 8), natToByte s.b,
   natToByte (s.c >>> 24), natToByte (s.c >>> 16), natToByte (s.c >>> 8), natToByte s.c,
   natToByte (s.d >>> 24), natToByte (s.d >>> 16), natToByte (s.d >>> 8), natToByte s.d,
   natToByte (s.e >>> 24), natToByte (s.e >>> 16), natToByte (s.e >>> 8), natToByte s.e,
   natToByte (s.f >>> 24), natToByte (s.f >>> 16), natToByte (s.f >>> 8), natToByte s.f,
   natToByte (s.g >>> 24), natToByte (s.g >>> 16), natToByte (s.g >>> 8), natToByte s.g,
   natToByte (s.h >>> 24), natToByte (s.h >>> 16), natToByte (s.h >>> 8), natToByte s.h]

/-- SHA-256 of a byte string, as the host primitive computes it. -/
def sha256 (msg : List Byte) : List Byte :=
  let p := shaPad msg
  (toBlocksAux p.length p).foldl compress initH |> hashBytes

/-! ## The commitment module (commitment.rs) -/

/-- An owner identity. The source uses soroban Address, whose canonical
serialization is owner.to_xdr (ledger-specific, self-describing); we model an
address by that serialization directly, so distinct byte strings are distinct
addresses. -/
structure Address where
  xdr : List Byte
deriving DecidableEq

/-- The canonical serialization of an address (owner.to_xdr in the source). -/
def Address.to_xdr (a : Address) : List Byte := a.xdr

/-- MAX_SALT_LENGTH from commitment.rs. -/
def MAX_SALT_LENGTH : Nat := 256

/-- The two panic conditions of create_amount_commitment, as an error type. -/
inductive CommitError where
  | InvalidAmount
  | SaltTooLong
deriving DecidableEq

/-- Helper from commitment.rs: extend a Bytes with one byte, by copying the
existing bytes one at a time (result.push in a loop) and appending the byte. -/
def extend_bytes (bytes : List Byte) (byte : Byte) : List Byte :=
  let result : List Byte := []
  let result := (List.range bytes.length).foldl
    (fun acc i => acc ++ [bytes.getD i (natToByte 0)]) result
  result ++ [byte]

/-- Helper from commitment.rs: concatenate two Bytes, by appending all bytes
of the first and then all bytes of the second via extend_bytes. -/
def concat_bytes (a b : List Byte) : List Byte :=
  let result : List Byte := []
  let result := (List.range a.length).foldl
    (fun acc i => extend_bytes acc (a.getD i (natToByte 0))) result
  (List.range b.length).foldl
    (fun acc i => extend_bytes acc (b.getD i (natToByte 0))) result

/-- The 16 bytes of amount.to_be_bytes(): the i128 amount in big-endian
two's-complement. -/
def i128_to_be_bytes (amount : Int) : List Byte :=
  let n := (amount % 2 ^ 128).toNat
  (List.range 16).map (fun k => natToByte (n >>> (8 * (15 - k))))

/-- create_amount_commitment from commitment.rs: validate amount and salt,
build owner.to_xdr ++ amount.to_be_bytes ++ salt via concat_bytes, and hash
with SHA-256; the Rust panics are the error cases. -/
def create_amount_commitment (owner : Address) (amount : Int) (salt : List Byte) :
    Except CommitError (List Byte) :=
  if amount < 0 then
    .error .InvalidAmount
  else if salt.length > MAX_SALT_LENGTH then
    .error .SaltTooLong
  else
    let data : List Byte := []
    let owner_bytes := owner.to_xdr
    let data := concat_bytes data owner_bytes
    let amount_bytes := i128_to_be_bytes amount
    let data := concat_bytes data amount_bytes
    let data := concat_bytes data salt
    .ok (sha256 data)

/-- verify_amount_commitment from commitment.rs: recompute the commitment
(propagating create's panics) and compare byte-for-byte. -/
def verify_amount_commitment (commitment : List Byte) (owner : Address)
    (amount : Int) (salt : List Byte) : Except CommitError Bool :=
  match create_amount_commitment owner amount salt with
  | .error e => .error e
  | .ok recomputed => .ok (commitment == recomputed)

/-! ## The contract (lib.rs) over the persistent key/value store.
The store's four key namespaces — (privacy_level, account), (privacy_history,
account), escrow_counter, (escrow, id) — are modelled as the four fields of an
explicit state record threaded through each operation. -/

/-- The escrow details map written by create_escrow: a two-entry
Map<Symbol, Address> with keys from and to. -/
structure EscrowDetails where
  from_ : Address
  to_ : Address
deriving DecidableEq

/-- The persistent store as seen by this contract. -/
structure Store where
  privacy_level : Address → Option Nat
  privacy_history : Address → Option (List Nat)
  escrow_counter : Option Nat
  escrow : Nat → Option EscrowDetails

/-- A fresh store: no key of any namespace is set. -/
def emptyStore : Store :=
  ⟨fun _ => none, fun _ => none, none, fun _ => none⟩

namespace QuickexContract

/-- enable_privacy from lib.rs: set the privacy level for the account, read
the history (empty when absent), push the level at the front, store it back,
and return true. -/
def enable_privacy (st : Store) (account : Address) (privacy_level : Nat) :
    Store × Bool :=
  let st1 : Store := { st with
    privacy_level := fun a => if a = account then some privacy_level
                              else st.privacy_level a }
  let history := (st1.privacy_history account).getD []
  let history := privacy_level :: history
  let st2 : Store := { st1 with
    privacy_history := fun a => if a = account then some history
                                else st1.privacy_history a }
  (st2, true)

/-- privacy_status from lib.rs: the stored level, if any. -/
def privacy_status (st : Store) (account : Address) : Option Nat :=
  st.privacy_level account

/-- privacy_history from lib.rs: the stored history, empty when absent. -/
def privacy_history (st : Store) (account : Address) : List Nat :=
  (st.privacy_history account).getD []

/-- create_escrow from lib.rs: increment the persisted u64 counter (0 when
absent), use it as the id, and record the (from, to) pair under the id; the
amount argument is accepted but unused. -/
def create_escrow (st : Store) (from_ : Address) (to_ : Address)
    (_amount : Nat) : Store × Nat :=
  let count := st.escrow_counter.getD 0
  let count := (count + 1) % 2 ^ 64
  let st1 : Store := { st with escrow_counter := some count }
  let escrow_id := count
  let escrow_details : EscrowDetails := ⟨from_, to_⟩
  let st2 : Store := { st1 with
    escrow := fun i => if i = escrow_id then some escrow_details
                       else st1.escrow i }
  (st2, escrow_id)

/-- health_check from lib.rs. -/
def health_check : Bool := true

end QuickexContract

/-- Run enable_privacy on one account for each level of a list, in order,
returning the final store. -/
def apply_enables (st : Store) (account : Address) (levels : List Nat) : Store :=
  levels.foldl (fun s l => (QuickexContract.enable_privacy s account l).1) st

/-- One create_escrow call inside a sequence: thread the store and append the
returned id. -/
def run_creates_step (acc : Store × List Nat) (c : Address × Address × Nat) :
    Store × List Nat :=
  let r := QuickexContract.create_escrow acc.1 c.1 c.2.1 c.2.2
  (r.1, acc.2 ++ [r.2])

/-- Run create_escrow once per argument triple, in order, returning the final
store and the list of returned ids, oldest first. -/
def run_creates (st : Store) (calls : List (Address × Address × Nat)) :
    Store × List Nat :=
  calls.foldl run_creates_step (st, [])

/-! ## Helper lemmas: the byte-by-byte buffer loops build plain concatenation -/

/-- Folding indexwise pushes over a range reproduces take. -/
lemma foldl_push_take (l : List Byte) (d : Byte) :
    ∀ (n : Nat), n ≤ l.length → ∀ init,
      (List.range n).foldl (fun acc i => acc ++ [l.getD i d]) init =
        init ++ l.take n := by
  intro n
  induction n with
  | zero => intro _ init; simp
  | succ k ih =>
    intro hk init
    have hlt : k < l.length := hk
    simp only [List.range_succ, List.foldl_append, List.foldl_cons, List.foldl_nil]
    rw [ih (Nat.le_of_succ_le hk) init, List.getD_eq_getElem l d hlt, List.take_succ]
    simp [List.getElem?_eq_getElem hlt, List.append_assoc]

/-- extend_bytes is append of one byte. -/
lemma extend_bytes_eq (bytes : List Byte) (byte : Byte) :
    extend_bytes bytes byte = bytes ++ [byte] := by
  simp only [extend_bytes]
  rw [foldl_push_take bytes (natToByte 0) bytes.length (Nat.le_refl _) [],
    List.take_length, List.nil_append]

/-- Folding extend_bytes over a range reproduces take. -/
lemma foldl_extend_take (l : List Byte) (d : Byte) (n : Nat) (hn : n ≤ l.length)
    (init : List Byte) :
    (List.range n).foldl (fun acc i => extend_bytes acc (l.getD i d)) init =
      init ++ l.take n := by
  rw [List.foldl_ext (fun acc i => extend_bytes acc (l.getD i d))
    (fun acc i => acc ++ [l.getD i d]) init
    (fun acc i _ => extend_bytes_eq acc (l.getD i d))]
  exact foldl_push_take l d n hn init

/-- concat_bytes is list append. -/
lemma concat_bytes_eq (a b : List Byte) : concat_bytes a b = a ++ b := by
  simp only [concat_bytes]
  rw [foldl_extend_take a (natToByte 0) a.length (Nat.le_refl _) [],
    List.take_length, List.nil_append,
    foldl_extend_take b (natToByte 0) b.length (Nat.le_refl _) a,
    List.take_length]

/-! ## Helper lemmas: the amount encoding and the digest -/

/-- A SHA-256 digest has exactly 32 bytes. -/
lemma sha256_length (msg : List Byte) : (sha256 msg).length = 32 := rfl

/-- The amount encoding has exactly 16 bytes. -/
lemma i128_to_be_bytes_length (amount : Int) :
    (i128_to_be_bytes amount).length = 16 := by
  simp [i128_to_be_bytes]

/-- Big-endian byte extraction folds back to the encoded number. -/
lemma foldl_be_bytes : ∀ (m : Nat), ∀ n < 2 ^ (8 * m),
    ((List.range m).map (fun k => n >>> (8 * (m - 1 - k)) % 256)).foldl
      (fun acc b => acc * 256 + b) 0 = n := by
  intro m
  induction m with
  | zero => intro n hn; simpa using (Nat.lt_one_iff.mp (by simpa using hn)).symm
  | succ m ih =>
    intro n hn
    have hdiv : n / 256 < 2 ^ (8 * m) := by
      rw [Nat.div_lt_iff_lt_mul (by norm_num)]
      calc n < 2 ^ (8 * (m + 1)) := hn
        _ = 2 ^ (8 * m) * 256 := by ring
    have hmap : (List.range m).map (fun k => n >>> (8 * (m + 1 - 1 - k)) % 256) =
        (List.range m).map (fun k => (n / 256) >>> (8 * (m - 1 - k)) % 256) := by
      apply List.map_congr_left
      intro k hk
      have hk' : k < m := List.mem_range.mp hk
      have h8 : 8 * (m + 1 - 1 - k) = 8 + 8 * (m - 1 - k) := by omega
      rw [h8, Nat.shiftRight_add]
      norm_num [Nat.shiftRight_eq_div_pow]
    rw [List.range_succ, List.map_append, List.foldl_append, hmap, ih (n / 256) hdiv]
    simp [Nat.shiftRight_eq_div_pow]
    omega

set_option maxRecDepth 4000 in
/-- The 16 bytes of the amount encoding, read back big-endian, give the
amount's two's-complement residue: the encoding is value-faithful. -/
lemma i128_to_be_bytes_value (amount : Int) :
    (i128_to_be_bytes amount).foldl (fun acc b => acc * 256 + b.val) 0 =
      (amount % 2 ^ 128).toNat := by
  have hlt : (amount % 2 ^ 128).toNat < 2 ^ (8 * 16) := by
    have h1 : 0 ≤ amount % 2 ^ 128 := Int.emod_nonneg _ (by norm_num)
    have h2 : amount % 2 ^ 128 < 2 ^ 128 := Int.emod_lt_of_pos _ (by norm_num)
    have h3 : (2 : Nat) ^ (8 * 16) = 2 ^ 128 := by norm_num
    rw [h3]
    omega
  have := foldl_be_bytes 16 ((amount % 2 ^ 128).toNat) hlt
  unfold i128_to_be_bytes
  rw [List.foldl_map]
  simpa [natToByte] using this

/-! ## Helper lemmas: control flow of create_amount_commitment -/

/-- A negative amount fails with InvalidAmount before anything is hashed. -/
lemma create_amount_commitment_neg (o : Address) (a : Int) (s : List Byte)
    (h : a < 0) :
    create_amount_commitment o a s = .error .InvalidAmount := by
  unfold create_amount_commitment
  rw [if_pos h]

/-- A nonnegative amount with an oversized salt fails with SaltTooLong. -/
lemma create_amount_commitment_long_salt (o : Address) (a : Int) (s : List Byte)
    (h1 : ¬a < 0) (h2 : s.length > MAX_SALT_LENGTH) :
    create_amount_commitment o a s = .error .SaltTooLong := by
  unfold create_amount_commitment
  rw [if_neg h1, if_pos h2]

/-- On valid inputs, create returns the SHA-256 of the plain concatenation
owner serialization, then amount bytes, then salt. -/
lemma create_amount_commitment_ok (o : Address) (a : Int) (s : List Byte)
    (h1 : ¬a < 0) (h2 : ¬s.length > MAX_SALT_LENGTH) :
    create_amount_commitment o a s =
      .ok (sha256 (o.to_xdr ++ i128_to_be_bytes a ++ s)) := by
  unfold create_amount_commitment
  rw [if_neg h1, if_neg h2]
  simp only [concat_bytes_eq, List.nil_append, List.append_assoc]

/-! ## Helper lemmas: the privacy store and escrow registry -/

/-- enable_privacy returns true. -/
lemma enable_privacy_returns_true (st : Store) (A : Address) (l : Nat) :
    (QuickexContract.enable_privacy st A l).2 = true := rfl

/-- enable_privacy sets the account's own level. -/
lemma enable_privacy_status_self (st : Store) (A : Address) (l : Nat) :
    QuickexContract.privacy_status (QuickexContract.enable_privacy st A l).1 A =
      some l := by
  simp [QuickexContract.enable_privacy, QuickexContract.privacy_status]

/-- enable_privacy prepends the level to the account's own history. -/
lemma enable_privacy_history_self (st : Store) (A : Address) (l : Nat) :
    QuickexContract.privacy_history (QuickexContract.enable_privacy st A l).1 A =
      l :: QuickexContract.privacy_history st A := by
  simp [QuickexContract.enable_privacy, QuickexContract.privacy_history]

/-- enable_privacy leaves another account's level untouched. -/
lemma enable_privacy_status_other (st : Store) (A : Address) (l : Nat)
    (B : Address) (h : B ≠ A) :
    QuickexContract.privacy_status (QuickexContract.enable_privacy st A l).1 B =
      QuickexContract.privacy_status st B := by
  simp [QuickexContract.enable_privacy, QuickexContract.privacy_status, h]

/-- enable_privacy leaves another account's history untouched. -/
lemma enable_privacy_history_other (st : Store) (A : Address) (l : Nat)
    (B : Address) (h : B ≠ A) :
    QuickexContract.privacy_history (QuickexContract.enable_privacy st A l).1 B =
      QuickexContract.privacy_history st B := by
  simp [QuickexContract.enable_privacy, QuickexContract.privacy_history, h]

/-- The last element of a cons, via getLast? of the tail. -/
lemma getLast?_cons_eq (a : Nat) (l : List Nat) :
    (a :: l).getLast? = some (l.getLast?.getD a) := by
  induction l generalizing a with
  | nil => rfl
  | cons b bs ih =>
    rw [List.getLast?_cons_cons, ih b]
    rfl

/-- Applying a nonempty list of enable_privacy calls leaves the last level as
the account's status. -/
lemma apply_enables_status (A : Address) :
    ∀ (ls : List Nat) (st : Store), ls ≠ [] →
      QuickexContract.privacy_status (apply_enables st A ls) A = ls.getLast? := by
  intro ls
  induction ls with
  | nil => intro st h; exact absurd rfl h
  | cons l ls ih =>
    intro st _
    rcases ls with _ | ⟨l2, ls2⟩
    · simpa [apply_enables] using enable_privacy_status_self st A l
    · have step : apply_enables st A (l :: l2 :: ls2) =
          apply_enables (QuickexContract.enable_privacy st A l).1 A (l2 :: ls2) := rfl
      rw [step, ih _ (by simp), List.getLast?_cons_cons]

/-- Applying a list of enable_privacy calls prepends the reversed levels to
the account's history. -/
lemma apply_enables_history (A : Address) :
    ∀ (ls : List Nat) (st : Store),
      QuickexContract.privacy_history (apply_enables st A ls) A =
        ls.reverse ++ QuickexContract.privacy_history st A := by
  intro ls
  induction ls with
  | nil => intro st; simp [apply_enables]
  | cons l ls ih =>
    intro st
    have step : apply_enables st A (l :: ls) =
        apply_enables (QuickexContract.enable_privacy st A l).1 A ls := rfl
    rw [step, ih, enable_privacy_history_self]
    simp

/-- The counter after create_escrow. -/
lemma create_escrow_counter (st : Store) (f t : Address) (a : Nat) :
    ((QuickexContract.create_escrow st f t a).1).escrow_counter =
      some ((st.escrow_counter.getD 0 + 1) % 2 ^ 64) := rfl

/-- The id returned by create_escrow. -/
lemma create_escrow_id (st : Store) (f t : Address) (a : Nat) :
    (QuickexContract.create_escrow st f t a).2 =
      (st.escrow_counter.getD 0 + 1) % 2 ^ 64 := rfl

/-- Running a sequence of create_escrow calls returns the consecutive ids
that continue the current counter, as long as the counter does not wrap. -/
lemma run_creates_go :
    ∀ (calls : List (Address × Address × Nat)) (st : Store) (acc : List Nat),
      st.escrow_counter.getD 0 + calls.length < 2 ^ 64 →
      (calls.foldl run_creates_step (st, acc)).2 =
        acc ++ List.range' (st.escrow_counter.getD 0 + 1) calls.length := by
  intro calls
  induction calls with
  | nil => intro st acc _; simp
  | cons c cs ih =>
    intro st acc h
    have hlt : st.escrow_counter.getD 0 + 1 < 2 ^ 64 := by
      simp at h; omega
    have hmod : (st.escrow_counter.getD 0 + 1) % 2 ^ 64 =
        st.escrow_counter.getD 0 + 1 := Nat.mod_eq_of_lt hlt
    have hstep : run_creates_step (st, acc) c =
        ((QuickexContract.create_escrow st c.1 c.2.1 c.2.2).1,
          acc ++ [(st.escrow_counter.getD 0 + 1) % 2 ^ 64]) := rfl
    have hcnt : ((QuickexContract.create_escrow st c.1 c.2.1 c.2.2).1).escrow_counter.getD 0 =
        st.escrow_counter.getD 0 + 1 := by
      rw [create_escrow_counter, Option.getD_some, hmod]
    rw [List.foldl_cons, hstep, ih _ _ (by rw [hcnt]; simp at h ⊢; omega), hcnt, hmod]
    have hr : List.range' (st.escrow_counter.getD 0 + 1) (c :: cs).length =
        (st.escrow_counter.getD 0 + 1) ::
          List.range' (st.escrow_counter.getD 0 + 1 + 1) cs.length := rfl
    rw [hr]
    simp [List.append_assoc]

/-! ## The claims -/

/-- Claim C1: for every identity, every i128 amount with amount at least 0,
and every salt of at most 256 bytes, create_amount_commitment returns the
fixed 32-byte SHA-256 digest of the concatenation, in this order with no
length prefixes: the identity's canonical serialization, then the amount as
exactly 16 bytes big-endian two's-complement, then the raw salt bytes. -/
theorem create_commitment_digest_eq (owner : Address) (amount : Int)
    (salt : List Byte) (h1 : 0 ≤ amount) (_h2 : amount < 2 ^ 127)
    (h3 : salt.length ≤ 256) :
    create_amount_commitment owner amount salt =
      .ok (sha256 (owner.to_xdr ++ i128_to_be_bytes amount ++ salt)) ∧
    (i128_to_be_bytes amount).length = 16 ∧
    (i128_to_be_bytes amount).foldl (fun acc b => acc * 256 + b.val) 0 =
      (amount % 2 ^ 128).toNat ∧
    (sha256 (owner.to_xdr ++ i128_to_be_bytes amount ++ salt)).length = 32 := by
  refine ⟨?_, i128_to_be_bytes_length amount, i128_to_be_bytes_value amount,
    sha256_length _⟩
  exact create_amount_commitment_ok owner amount salt (not_lt.mpr h1)
    (by simp only [MAX_SALT_LENGTH, gt_iff_lt, not_lt]; exact h3)

set_option maxRecDepth 100000 in
/-- Witness for claim C1 at a concrete identity, amount, and salt. -/
theorem create_commitment_digest_eq_witness :
    create_amount_commitment ⟨[1, 2, 3]⟩ 5 [7] =
      .ok (sha256 (Address.to_xdr ⟨[1, 2, 3]⟩ ++ i128_to_be_bytes 5 ++ [7])) ∧
    (i128_to_be_bytes 5).length = 16 ∧
    (i128_to_be_bytes 5).foldl (fun acc b => acc * 256 + b.val) 0 =
      ((5 : Int) % 2 ^ 128).toNat ∧
    (sha256 (Address.to_xdr ⟨[1, 2, 3]⟩ ++ i128_to_be_bytes 5 ++ [7])).length = 32 :=
  create_commitment_digest_eq ⟨[1, 2, 3]⟩ 5 [7] (by decide) (by decide) (by decide)

/-- Claim C2: verifying a digest produced by create_amount_commitment with
the same identity, amount, and salt returns true. -/
theorem verify_create_roundtrip (owner : Address) (amount : Int)
    (salt : List Byte) (h1 : 0 ≤ amount) (_h2 : amount < 2 ^ 127)
    (h3 : salt.length ≤ 256) :
    ∃ d, create_amount_commitment owner amount salt = .ok d ∧
      verify_amount_commitment d owner amount salt = .ok true := by
  have hc := create_amount_commitment_ok owner amount salt (not_lt.mpr h1)
    (by simp only [MAX_SALT_LENGTH, gt_iff_lt, not_lt]; exact h3)
  refine ⟨sha256 (owner.to_xdr ++ i128_to_be_bytes amount ++ salt), hc, ?_⟩
  unfold verify_amount_commitment
  rw [hc]
  show Except.ok (sha256 (owner.to_xdr ++ i128_to_be_bytes amount ++ salt) ==
    sha256 (owner.to_xdr ++ i128_to_be_bytes amount ++ salt)) = Except.ok true
  rw [beq_self_eq_true]

set_option maxRecDepth 100000 in
/-- Witness for claim C2 at a concrete identity, amount, and salt. -/
theorem verify_create_roundtrip_witness :
    verify_amount_commitment
      ((create_amount_commitment ⟨[1, 2, 3]⟩ 5 [7]).toOption.getD [])
      ⟨[1, 2, 3]⟩ 5 [7] = .ok true := by
  obtain ⟨d, hd, hv⟩ :=
    verify_create_roundtrip ⟨[1, 2, 3]⟩ 5 [7] (by decide) (by decide) (by decide)
  rw [hd]
  exact hv

set_option maxRecDepth 100000 in
/-- Claim C3 counterexample: with amount -1 and a 257-byte salt the call
fails with InvalidAmount, not SaltTooLong, although the salt exceeds 256
bytes — the amount check runs first, so SaltTooLong is not raised exactly
when the salt is too long. -/
theorem invalid_amount_shadows_salt_error :
    (List.replicate 257 (natToByte 0)).length > 256 ∧
    create_amount_commitment ⟨[]⟩ (-1) (List.replicate 257 (natToByte 0)) =
      .error .InvalidAmount ∧
    CommitError.InvalidAmount ≠ CommitError.SaltTooLong :=
  ⟨by simp, create_amount_commitment_neg _ _ _ (by decide), by decide⟩

/-- Claim C3 as amended: create_amount_commitment fails with InvalidAmount
exactly when amount is negative, and with SaltTooLong exactly when the amount
is nonnegative and the salt exceeds 256 bytes (the amount check runs first);
no digest is produced in either case; amount 0, the maximum i128 amount, the
empty salt, and a 256-byte salt succeed, while amount -1 fails with
InvalidAmount and a 257-byte salt with nonnegative amount fails with
SaltTooLong. -/
theorem create_commitment_error_cases (o : Address) (a : Int) (s : List Byte) :
    (create_amount_commitment o a s = .error .InvalidAmount ↔ a < 0) ∧
    (create_amount_commitment o a s = .error .SaltTooLong ↔
      0 ≤ a ∧ 256 < s.length) ∧
    (0 ≤ a → s.length ≤ 256 →
      create_amount_commitment o a s =
        .ok (sha256 (o.to_xdr ++ i128_to_be_bytes a ++ s))) ∧
    (s.length ≤ 256 → ∃ d, create_amount_commitment o 0 s = .ok d) ∧
    (s.length ≤ 256 → ∃ d, create_amount_commitment o (2 ^ 127 - 1) s = .ok d) ∧
    create_amount_commitment o (-1) s = .error .InvalidAmount ∧
    (0 ≤ a → ∃ d, create_amount_commitment o a [] = .ok d) ∧
    (0 ≤ a → s.length = 256 → ∃ d, create_amount_commitment o a s = .ok d) ∧
    (0 ≤ a → s.length = 257 → create_amount_commitment o a s =
      .error .SaltTooLong) := by
  have hok : ∀ (a' : Int) (s' : List Byte), ¬a' < 0 → ¬s'.length > MAX_SALT_LENGTH →
      create_amount_commitment o a' s' =
        .ok (sha256 (o.to_xdr ++ i128_to_be_bytes a' ++ s')) :=
    fun a' s' => create_amount_commitment_ok o a' s'
  refine ⟨?_, ?_, ?_, ?_, ?_, ?_, ?_, ?_, ?_⟩
  · constructor
    · intro h
      by_contra ha
      by_cases hs : s.length > MAX_SALT_LENGTH
      · rw [create_amount_commitment_long_salt o a s ha hs] at h
        simp at h
      · rw [hok a s ha hs] at h
        simp at h
    · exact create_amount_commitment_neg o a s
  · constructor
    · intro h
      by_cases ha : a < 0
      · rw [create_amount_commitment_neg o a s ha] at h
        simp at h
      · by_cases hs : s.length > MAX_SALT_LENGTH
        · exact ⟨not_lt.mp ha, hs⟩
        · rw [hok a s ha hs] at h
          simp at h
    · rintro ⟨ha, hs⟩
      exact create_amount_commitment_long_salt o a s (not_lt.mpr ha) hs
  · intro h1 h2
    exact hok a s (not_lt.mpr h1)
      (by simp only [MAX_SALT_LENGTH, gt_iff_lt, not_lt]; exact h2)
  · intro h
    exact ⟨_, hok 0 s (by norm_num)
      (by simp only [MAX_SALT_LENGTH, gt_iff_lt, not_lt]; exact h)⟩
  · intro h
    exact ⟨_, hok (2 ^ 127 - 1) s (by norm_num)
      (by simp only [MAX_SALT_LENGTH, gt_iff_lt, not_lt]; exact h)⟩
  · exact create_amount_commitment_neg o (-1) s (by norm_num)
  · intro h1
    exact ⟨_, hok a [] (not_lt.mpr h1) (by decide)⟩
  · intro h1 h2
    exact ⟨_, hok a s (not_lt.mpr h1) (by show ¬s.length > 256; omega)⟩
  · intro h1 h2
    exact create_amount_commitment_long_salt o a s (not_lt.mpr h1)
      (by show s.length > 256; omega)

set_option maxRecDepth 100000 in
/-- Witness for the amended claim C3 at concrete inputs on both error
branches. -/
theorem create_commitment_error_cases_witness :
    create_amount_commitment ⟨[9]⟩ (-1) [4] = .error .InvalidAmount ∧
    create_amount_commitment ⟨[9]⟩ 3 (List.replicate 257 (natToByte 1)) =
      .error .SaltTooLong :=
  ⟨(create_commitment_error_cases ⟨[9]⟩ (-1) [4]).1.mpr (by decide),
   (create_commitment_error_cases ⟨[9]⟩ 3 (List.replicate 257 (natToByte 1))).2.1.mpr
     ⟨by decide, by simp⟩⟩

/-- Claim C4 counterexample: verify_amount_commitment on a negative amount
propagates create's InvalidAmount error instead of returning a boolean. -/
theorem verify_propagates_invalid_amount :
    verify_amount_commitment [] ⟨[]⟩ (-1) [] = .error .InvalidAmount ∧
    (Except.error CommitError.InvalidAmount ≠
      (Except.ok false : Except CommitError Bool)) ∧
    (Except.error CommitError.InvalidAmount ≠
      (Except.ok true : Except CommitError Bool)) := by
  refine ⟨?_, by simp, by simp⟩
  unfold verify_amount_commitment
  rw [create_amount_commitment_neg ⟨[]⟩ (-1) [] (by decide)]

/-- Claim C4 as amended: verify_amount_commitment returns a boolean whenever
the recomputation inputs are valid, reporting every digest mismatch as false;
but on invalid recomputation inputs (negative amount, salt longer than 256
bytes) it propagates create's error instead of returning false. -/
theorem verify_error_cases (d : List Byte) (o : Address) (a : Int)
    (s : List Byte) :
    (0 ≤ a → s.length ≤ 256 →
      verify_amount_commitment d o a s =
        .ok (d == sha256 (o.to_xdr ++ i128_to_be_bytes a ++ s))) ∧
    (a < 0 → verify_amount_commitment d o a s = .error .InvalidAmount) ∧
    (0 ≤ a → 256 < s.length →
      verify_amount_commitment d o a s = .error .SaltTooLong) ∧
    (0 ≤ a → s.length ≤ 256 →
      d ≠ sha256 (o.to_xdr ++ i128_to_be_bytes a ++ s) →
      verify_amount_commitment d o a s = .ok false) := by
  have hbool : 0 ≤ a → s.length ≤ 256 →
      verify_amount_commitment d o a s =
        .ok (d == sha256 (o.to_xdr ++ i128_to_be_bytes a ++ s)) := by
    intro h1 h2
    unfold verify_amount_commitment
    rw [create_amount_commitment_ok o a s (not_lt.mpr h1)
      (by show ¬s.length > 256; omega)]
  refine ⟨hbool, ?_, ?_, ?_⟩
  · intro h1
    unfold verify_amount_commitment
    rw [create_amount_commitment_neg o a s h1]
  · intro h1 h2
    unfold verify_amount_commitment
    rw [create_amount_commitment_long_salt o a s (not_lt.mpr h1)
      (by show s.length > 256; omega)]
  · intro h1 h2 hne
    rw [hbool h1 h2, beq_eq_false_iff_ne.mpr hne]

set_option maxRecDepth 100000 in
/-- Witness for the amended claim C4 at concrete inputs on both propagated
error branches and the boolean branch. -/
theorem verify_error_cases_witness :
    verify_amount_commitment [] ⟨[2]⟩ (-5) [1] = .error .InvalidAmount ∧
    verify_amount_commitment [] ⟨[2]⟩ 4 (List.replicate 300 (natToByte 0)) =
      .error .SaltTooLong ∧
    verify_amount_commitment [] ⟨[2]⟩ 4 [1] =
      .ok (([] : List Byte) ==
        sha256 (Address.to_xdr ⟨[2]⟩ ++ i128_to_be_bytes 4 ++ [1])) :=
  ⟨(verify_error_cases [] ⟨[2]⟩ (-5) [1]).2.1 (by decide),
   (verify_error_cases [] ⟨[2]⟩ 4 (List.replicate 300 (natToByte 0))).2.2.1
     (by decide) (by simp),
   (verify_error_cases [] ⟨[2]⟩ 4 [1]).1 (by decide) (by decide)⟩

/-- Claim C5: create_amount_commitment is deterministic — two calls on the
same valid identity, amount, and salt return byte-identical digests. -/
theorem create_commitment_deterministic (o : Address) (a : Int) (s : List Byte)
    (_h1 : 0 ≤ a) (_h2 : s.length ≤ 256) :
    ∀ d1 d2, create_amount_commitment o a s = .ok d1 →
      create_amount_commitment o a s = .ok d2 → d1 = d2 := by
  intro d1 d2 hd1 hd2
  rw [hd1] at hd2
  injection hd2

/-- Witness for claim C5 at a concrete identity, amount, and salt. -/
theorem create_commitment_deterministic_witness :
    sha256 (Address.to_xdr ⟨[]⟩ ++ i128_to_be_bytes 0 ++ []) =
      sha256 (Address.to_xdr ⟨[]⟩ ++ i128_to_be_bytes 0 ++ []) :=
  create_commitment_deterministic ⟨[]⟩ 0 [] (by decide) (by decide) _ _
    (create_amount_commitment_ok ⟨[]⟩ 0 [] (by decide) (by decide))
    (create_amount_commitment_ok ⟨[]⟩ 0 [] (by decide) (by decide))

/-- Claim C6: starting from a fresh store, successive create_escrow calls
return the ids 1, 2, 3, ... in order — strictly increasing from 1 with no
gaps or reuse (stated for sequences short enough not to wrap the u64
counter). -/
theorem create_escrow_ids_sequential (calls : List (Address × Address × Nat))
    (h : calls.length < 2 ^ 64) :
    (run_creates emptyStore calls).2 = List.range' 1 calls.length := by
  have hgo := run_creates_go calls emptyStore []
    (by simpa [emptyStore] using h)
  simpa [run_creates, emptyStore] using hgo

/-- Witness for claim C6: two concrete calls return ids 1 and 2. -/
theorem create_escrow_ids_sequential_witness :
    (run_creates emptyStore [(⟨[1]⟩, ⟨[2]⟩, 5), (⟨[1]⟩, ⟨[2]⟩, 6)]).2 = [1, 2] :=
  create_escrow_ids_sequential [(⟨[1]⟩, ⟨[2]⟩, 5), (⟨[1]⟩, ⟨[2]⟩, 6)] (by decide)

/-- Claim C7: after a nonempty sequence of enable_privacy calls on account A
starting from a fresh store, privacy_history A is the most-recent-first list
of every level passed (duplicates included) and privacy_status A is the
last-set level. -/
theorem privacy_history_most_recent_first (A : Address) (ls : List Nat)
    (h : ls ≠ []) :
    QuickexContract.privacy_history (apply_enables emptyStore A ls) A =
      ls.reverse ∧
    QuickexContract.privacy_status (apply_enables emptyStore A ls) A =
      ls.getLast? := by
  refine ⟨?_, apply_enables_status A ls emptyStore h⟩
  have hh := apply_enables_history A ls emptyStore
  simpa [QuickexContract.privacy_history, emptyStore] using hh

/-- Witness for claim C7: enabling levels 1, 2, 3 in order gives history
[3, 2, 1] and status 3. -/
theorem privacy_history_most_recent_first_witness :
    QuickexContract.privacy_history
      (apply_enables emptyStore ⟨[8]⟩ [1, 2, 3]) ⟨[8]⟩ = [3, 2, 1] ∧
    QuickexContract.privacy_status
      (apply_enables emptyStore ⟨[8]⟩ [1, 2, 3]) ⟨[8]⟩ = some 3 :=
  privacy_history_most_recent_first ⟨[8]⟩ [1, 2, 3] (by decide)

/-- Claim C8: enable_privacy always succeeds returning true and immediately
sets the account's status to the given level; an account never enabled has
absent status. -/
theorem enable_privacy_sets_status (st : Store) (A : Address) (level : Nat)
    (B : Address) :
    (QuickexContract.enable_privacy st A level).2 = true ∧
    QuickexContract.privacy_status
      (QuickexContract.enable_privacy st A level).1 A = some level ∧
    QuickexContract.privacy_status emptyStore B = none :=
  ⟨rfl, enable_privacy_status_self st A level, rfl⟩

/-- Claim C9: create_escrow's returned id and store effect are independent of
the amount argument — the amount is neither validated nor stored. -/
theorem create_escrow_amount_irrelevant (st : Store) (f t : Address)
    (a1 a2 : Nat) :
    QuickexContract.create_escrow st f t a1 =
      QuickexContract.create_escrow st f t a2 := rfl

/-- Claim C10: enable_privacy on account A leaves every other account's
status and history, the escrow counter, and all escrow entries unchanged. -/
theorem enable_privacy_frame (st : Store) (A : Address) (level : Nat)
    (B : Address) (h : B ≠ A) :
    QuickexContract.privacy_status
      (QuickexContract.enable_privacy st A level).1 B =
      QuickexContract.privacy_status st B ∧
    QuickexContract.privacy_history
      (QuickexContract.enable_privacy st A level).1 B =
      QuickexContract.privacy_history st B ∧
    ((QuickexContract.enable_privacy st A level).1).escrow_counter =
      st.escrow_counter ∧
    ((QuickexContract.enable_privacy st A level).1).escrow = st.escrow :=
  ⟨enable_privacy_status_other st A level B h,
   enable_privacy_history_other st A level B h, rfl, rfl⟩

/-- Witness for claim C10 at two concrete distinct accounts. -/
theorem enable_privacy_frame_witness :
    QuickexContract.privacy_status
      (QuickexContract.enable_privacy emptyStore ⟨[0]⟩ 2).1 ⟨[1]⟩ =
      QuickexContract.privacy_status emptyStore ⟨[1]⟩ ∧
    QuickexContract.privacy_history
      (QuickexContract.enable_privacy emptyStore ⟨[0]⟩ 2).1 ⟨[1]⟩ =
      QuickexContract.privacy_history emptyStore ⟨[1]⟩ ∧
    ((QuickexContract.enable_privacy emptyStore ⟨[0]⟩ 2).1).escrow_counter =
      emptyStore.escrow_counter ∧
    ((QuickexContract.enable_privacy emptyStore ⟨[0]⟩ 2).1).escrow =
      emptyStore.escrow :=
  enable_privacy_frame emptyStore ⟨[0]⟩ 2 ⟨[1]⟩ (by decide)
